import Mathlib

/-!
Verification of the training-loop orchestration in `train.py` of the
snnmodclass repository.

The `__main__` driver of `train.py` is shallowly embedded as a small state
machine: one `runStep` per iteration of the `for step in range(args.n_steps)`
loop, split into the three phases of the loop body that touch state tracked
here (learning-rate adjustment, training-batch fetch / label counting, and the
periodic test block with its file writes).  External collaborators (the
networks, torch tensors, the data loader internals) enter as parameters of an
`Env` record; accuracy values returned by the networks are opaque functions of
the step and test-batch index.
-/

namespace SNNTrain

/-- Write `v` at index `n` of a list; out-of-range writes are dropped
(mirrors the fact that in-range indexing is always established separately,
as numpy would raise on an out-of-range index). -/
def setIdx {α : Type} : List α → ℕ → α → List α
  | [], _, _ => []
  | _ :: xs, 0, v => v :: xs
  | x :: xs, n + 1, v => x :: setIdx xs n v

/-- Read index `n` of a list with default `d`. -/
def getIdx {α : Type} (d : α) : List α → ℕ → α
  | [], _ => d
  | x :: _, 0 => x
  | _ :: xs, n + 1 => getIdx d xs n

/-- Cell write `A[r, i] = some v` into a row-major 2-D array of optional
cells, as a numpy assignment `A[r, i] = v` (a `none` cell models a slot of an
`np.empty` array that has not been assigned yet). -/
def set2 {α : Type} (A : List (List (Option α))) (r i : ℕ) (v : α) :
    List (List (Option α)) :=
  setIdx A r (setIdx (getIdx [] A r) i (some v))

/-- Cell read `A[r, i]` of a row-major 2-D array of optional cells. -/
def get2 {α : Type} (A : List (List (Option α))) (r i : ℕ) : Option α :=
  getIdx none (getIdx [] A r) i

/-- One `label_train_counts[label] += 1` update (train.py line 323). -/
def bump (c : List ℤ) (l : ℕ) : List ℤ :=
  setIdx c l (getIdx 0 c l + 1)

/-- The `for label in labels: label_train_counts[label] += 1` loop
(train.py lines 322-323). -/
def bumpAll (c : List ℤ) (ls : List ℕ) : List ℤ :=
  ls.foldl bump c

/-- Ceiling division, the integer value of
`np.ceil(float(a) / b).astype(int)` for `b > 0`
(train.py lines 186-191). -/
def ceilDiv (a b : ℕ) : ℕ := (a + b - 1) / b

/-- The run configuration: the subset of the `argparse` arguments of
`train.py` that the tracked state depends on, plus the initial learning
rates.  `lr0` holds the per-slice learning rates installed in
`net.dcll_slices[i].optimizer`, `lr2_0` the one of
`net.dcll_slices[-1].optimizer2`, and `refLr0` the reference network's
(`args.ref_lr`). -/
structure Config where
  n_steps : ℕ
  n_test_interval : ℕ
  n_test_samples : ℕ
  batch_size_test : ℕ
  batch_size : ℕ
  target_size : ℕ
  just_ref : Bool
  no_save : Bool
  lr0 : List ℚ
  lr2_0 : ℚ
  refLr0 : ℚ

/-- `n_test = np.ceil(float(args.n_test_samples) / args.batch_size_test)`
(train.py lines 186-187). -/
def nTest (cfg : Config) : ℕ := ceilDiv cfg.n_test_samples cfg.batch_size_test

/-- `n_tests_total = np.ceil(float(args.n_steps) / args.n_test_interval)`
(train.py lines 190-191). -/
def nTestsTotal (cfg : Config) : ℕ := ceilDiv cfg.n_steps cfg.n_test_interval

/-- The external collaborators of the loop.  `trainData` is the finite
training dataset as the sequence of label batches the loader yields (inputs
are not tracked; only labels reach tracked state).  `testTensor s i` is the
outcome of `torch.Tensor(test_input).to(device)` for test batch `i` during
the evaluation round at step `s` (ok, or a raised `RuntimeError` message).
`accNet s i` / `accRef s i` are the opaque accuracy values
`net.accuracy(test_labels)` (per slice) and `ref_net.accuracy(...)` there. -/
structure Env where
  trainData : List (List ℕ)
  testTensor : ℕ → ℕ → Except String Unit
  accNet : ℕ → ℕ → List ℚ
  accRef : ℕ → ℕ → ℚ

/-- A file written during the run: `np.save` of the 3-D `acc_test` array,
`np.save` of the 2-D `acc_test_ref` array, or `torch.save` of the network
parameters (train.py lines 411-417). -/
inductive WriteEvent where
  | npySave3 (file : String) (data : List (List (Option (List ℚ))))
  | npySave2 (file : String) (data : List (List (Option ℚ)))
  | torchSave (file : String)
  deriving DecidableEq

/-- The tracked state of the training loop. `crashed` holds the message of a
propagating exception (after which nothing further executes); `writes` is the
ordered log of files written; `log` records the error prints modelled here. -/
structure State where
  stepIdx : ℕ
  crashed : Option String
  sliceLrs : List ℚ
  lr2 : ℚ
  refLr : ℚ
  labelCounts : List ℤ
  trainPos : ℕ
  accTest : List (List (Option (List ℚ)))
  accTestRef : List (List (Option ℚ))
  writes : List WriteEvent
  log : List String

/-- State at loop entry: learning rates as configured, the label counter
`np.zeros(target_size, dtype=int)` (line 295), the training iterator at the
start, and the two accuracy arrays allocated by `np.empty` at full size
(lines 241 and 259) with every cell still unassigned. -/
def initState (cfg : Config) : State where
  stepIdx := 0
  crashed := none
  sliceLrs := cfg.lr0
  lr2 := cfg.lr2_0
  refLr := cfg.refLr0
  labelCounts := List.replicate cfg.target_size 0
  trainPos := 0
  accTest := List.replicate (nTestsTotal cfg) (List.replicate (nTest cfg) none)
  accTestRef := List.replicate (nTestsTotal cfg) (List.replicate (nTest cfg) none)
  writes := []
  log := []

/-- Modelled from the spec: the data loader `get_radio_ml_loader` /
`get_mnist_loader` is not under src, so per the spec the training data source
is a fixed finite dataset iterated deterministically in order.  The
`try: next(gen_train) / except StopIteration: gen_train = iter(train_data);
next(gen_train)` logic itself is from train.py lines 317-321: a fresh
iterator is created on exhaustion and its first element taken (which raises
`StopIteration` uncaught only if the dataset is empty). -/
def fetchBatch (data : List (List ℕ)) (pos : ℕ) :
    Except String (List ℕ × ℕ) :=
  match data[pos]? with
  | some b => .ok (b, pos + 1)
  | none =>
    match data with
    | [] => .error "StopIteration"
    | b :: _ => .ok (b, 1)

/-- Learning-rate adjustment phase (train.py lines 302-308): at `step` `s`,
if `(s + 1) % 1000 == 0`, every slice optimizer's lr and the last slice's
secondary optimizer's lr are halved when the trainable network exists
(`not args.just_ref`), and the reference optimizer's lr is halved always. -/
def lrPhase (cfg : Config) (s : ℕ) (st : State) : State :=
  if (s + 1) % 1000 = 0 then
    { st with
      sliceLrs := if cfg.just_ref then st.sliceLrs else st.sliceLrs.map (· / 2)
      lr2 := if cfg.just_ref then st.lr2 else st.lr2 / 2
      refLr := st.refLr / 2 }
  else st

/-- Batch-fetch and label-count phase (train.py lines 317-323). -/
def fetchPhase (env : Env) (st : State) : State :=
  match fetchBatch env.trainData st.trainPos with
  | .error e => { st with crashed := some e }
  | .ok (b, p) =>
    { st with trainPos := p, labelCounts := bumpAll st.labelCounts b }

/-- The advice printed when materializing the test spike tensor raises
(train.py lines 383-385). -/
def adviceMsg (e : String) : String :=
  "- Exception: " ++ e ++
    ". Try to decrease your batch_size_test with the --batch_size_test argument."

/-- Checkpoint file name (train.py line 416):
`'parameters_{}.pth'.format(step)` — formatted with the step, joined under
the run's output directory (the directory part is constant and omitted). -/
def checkpointName (s : ℕ) : String := "parameters_" ++ Nat.repr s ++ ".pth"

/-- Modelled from the spec: the claim's round-indexed checkpoint file name,
`parameters_<round>.pth` with round `r = step // n_test_interval`, for
comparison with `checkpointName`. -/
def roundIndexedName (r : ℕ) : String := "parameters_" ++ Nat.repr r ++ ".pth"

/-- One test batch of an evaluation round at step `s`, round `r`, batch `i`
(train.py lines 366-405): when the trainable network runs, the test spike
tensor is materialized (possibly raising, which is reported and re-raised)
and the per-slice accuracy is recorded in `acc_test[r, i, :]`; the reference
accuracy is always recorded in `acc_test_ref[r, i]`. -/
def evalBatch (cfg : Config) (env : Env) (s r i : ℕ)
    (A : List (List (Option (List ℚ)))) (B : List (List (Option ℚ))) :
    Except (String × String) (List (List (Option (List ℚ))) × List (List (Option ℚ))) :=
  if cfg.just_ref then .ok (A, set2 B r i (env.accRef s i))
  else
    match env.testTensor s i with
    | .error e => .error (e, adviceMsg e)
    | .ok _ => .ok (set2 A r i (env.accNet s i), set2 B r i (env.accRef s i))

/-- The `for i, test_data in enumerate(all_test_data)` loop of an evaluation
round (train.py line 366), over the list of test-batch indices. -/
def evalLoop (cfg : Config) (env : Env) (s r : ℕ) :
    List ℕ → List (List (Option (List ℚ))) → List (List (Option ℚ)) →
    Except (String × String) (List (List (Option (List ℚ))) × List (List (Option ℚ)))
  | [], A, B => .ok (A, B)
  | i :: is, A, B =>
    match evalBatch cfg env s r i A B with
    | .error x => .error x
    | .ok (A', B') => evalLoop cfg env s r is A' B'

/-- Files written at the end of an evaluation round at step `s`
(train.py lines 411-417): guard `not args.just_ref and not args.no_save`;
`np.save` of both whole accuracy arrays to the two fixed file names, then
`torch.save` of the network parameters. -/
def saveEvents (cfg : Config) (s : ℕ) (A : List (List (Option (List ℚ))))
    (B : List (List (Option ℚ))) : List WriteEvent :=
  if cfg.just_ref = false ∧ cfg.no_save = false then
    [.npySave3 "acc_test.npy" A, .npySave2 "acc_test_ref.npy" B,
      .torchSave (checkpointName s)]
  else []

/-- Test phase at step `s` (train.py lines 364-417): when
`s % n_test_interval == 0`, run the evaluation round with round index
`s // n_test_interval`; on a raised `RuntimeError` the advice is printed and
the exception propagates; otherwise the arrays are updated and the round's
files are written under the save guard. -/
def testPhase (cfg : Config) (env : Env) (s : ℕ) (st : State) : State :=
  if s % cfg.n_test_interval = 0 then
    match evalLoop cfg env s (s / cfg.n_test_interval)
        (List.range (nTest cfg)) st.accTest st.accTestRef with
    | .error (e, msg) => { st with crashed := some e, log := st.log ++ [msg] }
    | .ok (A, B) =>
      { st with
        accTest := A
        accTestRef := B
        writes := st.writes ++ saveEvents cfg s A B }
  else st

/-- One iteration of `for step in range(args.n_steps)` (train.py line 300),
in source order: learning-rate adjustment, batch fetch and label counting
(training of the two networks touches no tracked state), then the test
phase.  A propagating exception freezes the state. -/
def runStep (cfg : Config) (env : Env) (st : State) : State :=
  match st.crashed with
  | some _ => st
  | none =>
    let s := st.stepIdx
    let st1 := fetchPhase env (lrPhase cfg s st)
    match st1.crashed with
    | some _ => st1
    | none =>
      let st2 := testPhase cfg env s st1
      match st2.crashed with
      | some _ => st2
      | none => { st2 with stepIdx := s + 1 }

/-- Iterate `runStep` from a given state. -/
def runFrom (cfg : Config) (env : Env) (st : State) : ℕ → State
  | 0 => st
  | n + 1 => runStep cfg env (runFrom cfg env st n)

/-- The first `n` iterations of the training loop from the initial state. -/
def run (cfg : Config) (env : Env) (n : ℕ) : State :=
  runFrom cfg env (initState cfg) n

/-- The 120-dash separator line printed by train.py. -/
def dashLine : String := String.mk (List.replicate 120 '-')

/-- Restore-path handling (train.py lines 225-234): when a restore path is
configured, a missing file is reported and loading skipped, otherwise the
checkpoint is loaded; returns the weights the run proceeds with and the
printed lines.  `isfile` and `loadW` stand for `os.path.isfile` and
`torch.load`; `freshW` are the freshly initialized weights. -/
def restoreWeights (restorePath : Option String) (isfile : String → Bool)
    (loadW : String → List ℚ) (freshW : List ℚ) : List ℚ × List String :=
  match restorePath with
  | none => (freshW, [])
  | some p =>
    if isfile p then
      (loadW p,
        [dashLine,
          "Loaded the weights of trained SNN model from `" ++ p ++ "`.",
          dashLine])
    else
      (freshW,
        [dashLine,
          "ERROR: Cannot load file `" ++ p ++ "`.",
          "File does not exist! Exit loading...",
          dashLine])

/-- The driver: restore handling followed by the full training loop; returns
the weights the networks start from and the final loop state. -/
def mainRun (cfg : Config) (env : Env) (restorePath : Option String)
    (isfile : String → Bool) (loadW : String → List ℚ) (freshW : List ℚ) :
    List ℚ × State :=
  let wl := restoreWeights restorePath isfile loadW freshW
  (wl.1, runFrom cfg env { initState cfg with log := wl.2 } cfg.n_steps)

/-- A one-sample, one-class environment used for concrete runs. -/
def envSmall : Env where
  trainData := [[0]]
  testTensor := fun _ _ => .ok ()
  accNet := fun _ _ => [1]
  accRef := fun _ _ => 1

/-- A minimal configuration with saving disabled (`--no_save`). -/
def cfgNoSave : Config where
  n_steps := 1
  n_test_interval := 1
  n_test_samples := 1
  batch_size_test := 1
  batch_size := 1
  target_size := 1
  just_ref := false
  no_save := true
  lr0 := [1]
  lr2_0 := 1
  refLr0 := 1

/-- A minimal reference-only (`--just_ref`) configuration with saving on. -/
def cfgJustRef : Config :=
  { cfgNoSave with just_ref := true, no_save := false }

/-- A configuration reaching a second evaluation round at step 20
(`n_test_interval = 20`, 21 steps), saving enabled. -/
def cfgStep20 : Config :=
  { cfgNoSave with n_steps := 21, n_test_interval := 20, no_save := false }

/-- A minimal configuration with saving enabled. -/
def cfgSave : Config :=
  { cfgNoSave with no_save := false }

/-- An environment whose test-tensor materialization raises at step 0,
batch 0. -/
def envOom : Env where
  trainData := [[0]]
  testTensor := fun s i =>
    if s = 0 ∧ i = 0 then .error "CUDA out of memory" else .ok ()
  accNet := fun _ _ => [1]
  accRef := fun _ _ => 1

theorem length_setIdx {α : Type} (l : List α) (n : ℕ) (v : α) :
    (setIdx l n v).length = l.length := by
  induction l generalizing n with
  | nil => rfl
  | cons x xs ih =>
    cases n with
    | zero => rfl
    | succ m => simp [setIdx, ih]

theorem setIdx_oob {α : Type} (l : List α) (n : ℕ) (v : α) (h : l.length ≤ n) :
    setIdx l n v = l := by
  induction l generalizing n with
  | nil => rfl
  | cons x xs ih =>
    cases n with
    | zero => simp at h
    | succ m =>
      simp only [List.length_cons, Nat.add_le_add_iff_right] at h
      simp [setIdx, ih m h]

theorem getIdx_setIdx_eq {α : Type} (d : α) (l : List α) (n : ℕ) (v : α)
    (h : n < l.length) : getIdx d (setIdx l n v) n = v := by
  induction l generalizing n with
  | nil => simp at h
  | cons x xs ih =>
    cases n with
    | zero => rfl
    | succ m =>
      simp only [List.length_cons, Nat.add_lt_add_iff_right] at h
      simpa [setIdx, getIdx] using ih m h

theorem getIdx_setIdx_ne {α : Type} (d : α) (l : List α) (n m : ℕ) (v : α)
    (h : m ≠ n) : getIdx d (setIdx l n v) m = getIdx d l m := by
  induction l generalizing n m with
  | nil => rfl
  | cons x xs ih =>
    cases n with
    | zero =>
      cases m with
      | zero => exact absurd rfl h
      | succ k => rfl
    | succ n' =>
      cases m with
      | zero => rfl
      | succ k =>
        simpa [setIdx, getIdx] using ih n' k (by omega)

theorem getIdx_replicate {α : Type} (d x : α) (k m : ℕ) :
    getIdx d (List.replicate k x) m = if m < k then x else d := by
  induction k generalizing m with
  | zero => simp [getIdx]
  | succ k' ih =>
    cases m with
    | zero => simp [getIdx, List.replicate]
    | succ m' => simp only [List.replicate, getIdx, ih, Nat.add_lt_add_iff_right]

theorem getIdx_oob {α : Type} (d : α) (l : List α) (n : ℕ) (h : l.length ≤ n) :
    getIdx d l n = d := by
  induction l generalizing n with
  | nil => rfl
  | cons x xs ih =>
    cases n with
    | zero => simp at h
    | succ m =>
      simp only [List.length_cons, Nat.add_le_add_iff_right] at h
      exact ih m h

theorem length_set2 {α : Type} (A : List (List (Option α))) (r i : ℕ) (v : α) :
    (set2 A r i v).length = A.length := length_setIdx ..

theorem rowlen_set2 {α : Type} (A : List (List (Option α))) (r i : ℕ) (v : α)
    (k : ℕ) : (getIdx [] (set2 A r i v) k).length = (getIdx [] A k).length := by
  unfold set2
  by_cases hk : k = r
  · subst hk
    by_cases hr : k < A.length
    · rw [getIdx_setIdx_eq _ _ _ _ hr, length_setIdx]
    · rw [setIdx_oob _ _ _ (by omega)]
  · rw [getIdx_setIdx_ne _ _ _ _ _ hk]

theorem get2_set2_self {α : Type} (A : List (List (Option α))) (r i : ℕ)
    (v : α) (hr : r < A.length) (hi : i < (getIdx [] A r).length) :
    get2 (set2 A r i v) r i = some v := by
  unfold set2 get2
  rw [getIdx_setIdx_eq _ _ _ _ hr, getIdx_setIdx_eq _ _ _ _ hi]

theorem get2_set2_ne {α : Type} (A : List (List (Option α))) (r i r' i' : ℕ)
    (v : α) (h : r' ≠ r ∨ i' ≠ i) : get2 (set2 A r i v) r' i' = get2 A r' i' := by
  unfold set2 get2
  rcases h with h | h
  · rw [getIdx_setIdx_ne _ _ _ _ _ h]
  · by_cases hr : r' = r
    · subst hr
      by_cases hb : r' < A.length
      · rw [getIdx_setIdx_eq _ _ _ _ hb, getIdx_setIdx_ne _ _ _ _ _ h]
      · rw [setIdx_oob _ _ _ (by omega)]
    · rw [getIdx_setIdx_ne _ _ _ _ _ hr]

theorem length_bump (c : List ℤ) (l : ℕ) : (bump c l).length = c.length :=
  length_setIdx ..

theorem length_bumpAll (c : List ℤ) (ls : List ℕ) :
    (bumpAll c ls).length = c.length := by
  induction ls generalizing c with
  | nil => rfl
  | cons l ls ih => simp only [bumpAll, List.foldl_cons] at ih ⊢
                    rw [ih, length_bump]

theorem sum_setIdx (l : List ℤ) (n : ℕ) (v : ℤ) (h : n < l.length) :
    (setIdx l n v).sum = l.sum - getIdx 0 l n + v := by
  induction l generalizing n with
  | nil => simp at h
  | cons x xs ih =>
    cases n with
    | zero => simp [setIdx, getIdx]; ring
    | succ m =>
      simp only [List.length_cons, Nat.add_lt_add_iff_right] at h
      simp only [setIdx, getIdx, List.sum_cons, ih m h]
      ring

theorem sum_bump (c : List ℤ) (l : ℕ) (h : l < c.length) :
    (bump c l).sum = c.sum + 1 := by
  unfold bump
  rw [sum_setIdx _ _ _ h]
  ring

theorem sum_bumpAll (c : List ℤ) (ls : List ℕ) (h : ∀ l ∈ ls, l < c.length) :
    (bumpAll c ls).sum = c.sum + ls.length := by
  induction ls generalizing c with
  | nil => simp [bumpAll]
  | cons l ls ih =>
    simp only [bumpAll, List.foldl_cons] at ih ⊢
    rw [ih _ fun x hx => by rw [length_bump]; exact h x (List.mem_cons_of_mem _ hx),
      sum_bump _ _ (h l (List.mem_cons_self _ _))]
    simp
    ring

theorem getIdx_bump_ge (c : List ℤ) (l : ℕ) (j : ℕ) :
    getIdx 0 c j ≤ getIdx 0 (bump c l) j := by
  unfold bump
  by_cases hj : j = l
  · subst hj
    by_cases hb : j < c.length
    · rw [getIdx_setIdx_eq _ _ _ _ hb]; omega
    · rw [setIdx_oob _ _ _ (by omega)]
  · rw [getIdx_setIdx_ne _ _ _ _ _ hj]

theorem getIdx_bumpAll_ge (c : List ℤ) (ls : List ℕ) (j : ℕ) :
    getIdx 0 c j ≤ getIdx 0 (bumpAll c ls) j := by
  induction ls generalizing c with
  | nil => simp [bumpAll]
  | cons l ls ih =>
    simp only [bumpAll, List.foldl_cons] at ih ⊢
    exact le_trans (getIdx_bump_ge c l j) (ih (bump c l))

theorem setIdx_getIdx {α : Type} (d : α) (l : List α) (n : ℕ) :
    setIdx l n (getIdx d l n) = l := by
  induction l generalizing n with
  | nil => rfl
  | cons x xs ih =>
    cases n with
    | zero => rfl
    | succ m => simp [setIdx, getIdx, ih]

theorem set2_oob_row {α : Type} (A : List (List (Option α))) (r i : ℕ) (v : α)
    (h : A.length ≤ r) : set2 A r i v = A :=
  setIdx_oob _ _ _ h

theorem set2_oob_col {α : Type} (A : List (List (Option α))) (r i : ℕ) (v : α)
    (h : (getIdx [] A r).length ≤ i) : set2 A r i v = A := by
  unfold set2
  rw [setIdx_oob _ _ _ h, setIdx_getIdx]

theorem mem_of_getIdx? {α : Type} {l : List α} {n : ℕ} {a : α}
    (h : l[n]? = some a) : a ∈ l := by
  induction l generalizing n with
  | nil => simp at h
  | cons x xs ih =>
    cases n with
    | zero =>
      simp only [List.getElem?_cons_zero, Option.some.injEq] at h
      exact h ▸ List.mem_cons_self _ _
    | succ m =>
      simp only [List.getElem?_cons_succ] at h
      exact List.mem_cons_of_mem _ (ih h)

@[simp] theorem lrPhase_stepIdx (cfg : Config) (s : ℕ) (st : State) :
    (lrPhase cfg s st).stepIdx = st.stepIdx := by
  unfold lrPhase; split <;> rfl

@[simp] theorem lrPhase_crashed (cfg : Config) (s : ℕ) (st : State) :
    (lrPhase cfg s st).crashed = st.crashed := by
  unfold lrPhase; split <;> rfl

@[simp] theorem lrPhase_labelCounts (cfg : Config) (s : ℕ) (st : State) :
    (lrPhase cfg s st).labelCounts = st.labelCounts := by
  unfold lrPhase; split <;> rfl

@[simp] theorem lrPhase_trainPos (cfg : Config) (s : ℕ) (st : State) :
    (lrPhase cfg s st).trainPos = st.trainPos := by
  unfold lrPhase; split <;> rfl

@[simp] theorem lrPhase_accTest (cfg : Config) (s : ℕ) (st : State) :
    (lrPhase cfg s st).accTest = st.accTest := by
  unfold lrPhase; split <;> rfl

@[simp] theorem lrPhase_accTestRef (cfg : Config) (s : ℕ) (st : State) :
    (lrPhase cfg s st).accTestRef = st.accTestRef := by
  unfold lrPhase; split <;> rfl

@[simp] theorem lrPhase_writes (cfg : Config) (s : ℕ) (st : State) :
    (lrPhase cfg s st).writes = st.writes := by
  unfold lrPhase; split <;> rfl

@[simp] theorem lrPhase_log (cfg : Config) (s : ℕ) (st : State) :
    (lrPhase cfg s st).log = st.log := by
  unfold lrPhase; split <;> rfl

theorem lrPhase_sliceLrs (cfg : Config) (s : ℕ) (st : State) :
    (lrPhase cfg s st).sliceLrs =
      if (s + 1) % 1000 = 0 ∧ cfg.just_ref = false
      then st.sliceLrs.map (· / 2) else st.sliceLrs := by
  unfold lrPhase
  by_cases h : (s + 1) % 1000 = 0
  · cases hj : cfg.just_ref <;> simp [h, hj]
  · simp [h]

theorem lrPhase_lr2 (cfg : Config) (s : ℕ) (st : State) :
    (lrPhase cfg s st).lr2 =
      if (s + 1) % 1000 = 0 ∧ cfg.just_ref = false
      then st.lr2 / 2 else st.lr2 := by
  unfold lrPhase
  by_cases h : (s + 1) % 1000 = 0
  · cases hj : cfg.just_ref <;> simp [h, hj]
  · simp [h]

theorem lrPhase_refLr (cfg : Config) (s : ℕ) (st : State) :
    (lrPhase cfg s st).refLr =
      if (s + 1) % 1000 = 0 then st.refLr / 2 else st.refLr := by
  unfold lrPhase
  by_cases h : (s + 1) % 1000 = 0 <;> simp [h]

theorem fetchPhase_char (env : Env) (st : State) (hd : env.trainData ≠ []) :
    ∃ b p, b ∈ env.trainData ∧
      fetchPhase env st =
        { st with trainPos := p, labelCounts := bumpAll st.labelCounts b } := by
  cases hg : env.trainData[st.trainPos]? with
  | some b =>
    refine ⟨b, st.trainPos + 1, mem_of_getIdx? hg, ?_⟩
    unfold fetchPhase fetchBatch
    rw [hg]
  | none =>
    cases hdata : env.trainData with
    | nil => exact absurd hdata hd
    | cons b rest =>
      refine ⟨b, 1, List.mem_cons_self _ _, ?_⟩
      unfold fetchPhase fetchBatch
      rw [hg, hdata]

theorem cell_formula_cons {α : Type} (A : List (List (Option α))) (r i : ℕ)
    (f : ℕ → α) (P : ℕ → Prop) [DecidablePred P] (r' i' : ℕ) :
    (if r' = r ∧ P i' ∧ r < A.length ∧ i' < (getIdx [] A r).length
     then some (f i') else get2 (set2 A r i (f i)) r' i') =
    (if r' = r ∧ (i' = i ∨ P i') ∧ r < A.length ∧ i' < (getIdx [] A r).length
     then some (f i') else get2 A r' i') := by
  by_cases h1 : r' = r
  · subst h1
    by_cases hb1 : r' < A.length
    · by_cases hb2 : i' < (getIdx [] A r').length
      · by_cases h2 : i' = i
        · subst h2
          by_cases h3 : P i'
          · simp [hb1, hb2, h3]
          · simp only [hb1, hb2, h3, and_true, true_and, false_and, and_false,
              if_false, or_false, if_true, eq_self_iff_true]
            rw [get2_set2_self A r' i' (f i') hb1 hb2]
        · by_cases h3 : P i'
          · simp [hb1, hb2, h3]
          · simp only [hb1, hb2, h3, and_true, true_and, false_and, and_false,
              if_false, or_false, false_or, h2, eq_self_iff_true]
            rw [get2_set2_ne A r' i r' i' (f i) (Or.inr h2)]
      · by_cases h2 : i' = i
        · subst h2
          rw [set2_oob_col A r' i' (f i') (by omega)]
          simp [hb2]
        · rw [get2_set2_ne A r' i r' i' (f i) (Or.inr h2)]
          simp [hb2]
    · rw [set2_oob_row A r' i (f i) (by omega)]
      simp [hb1]
  · simp only [h1, false_and, if_false]
    rw [get2_set2_ne A r i r' i' (f i) (Or.inl h1)]

theorem evalLoop_ok_char (cfg : Config) (env : Env) (s r : ℕ) :
    ∀ (is : List ℕ) (A : List (List (Option (List ℚ))))
      (B : List (List (Option ℚ))),
    (∀ i ∈ is, env.testTensor s i = .ok ()) →
    ∃ A' B', evalLoop cfg env s r is A B = .ok (A', B') ∧
      A'.length = A.length ∧ B'.length = B.length ∧
      (∀ k, (getIdx [] A' k).length = (getIdx [] A k).length) ∧
      (∀ k, (getIdx [] B' k).length = (getIdx [] B k).length) ∧
      (∀ r' i', get2 A' r' i' =
        if r' = r ∧ i' ∈ is ∧ cfg.just_ref = false ∧ r < A.length ∧
           i' < (getIdx [] A r).length
        then some (env.accNet s i') else get2 A r' i') ∧
      (∀ r' i', get2 B' r' i' =
        if r' = r ∧ i' ∈ is ∧ r < B.length ∧ i' < (getIdx [] B r).length
        then some (env.accRef s i') else get2 B r' i') := by
  intro is
  induction is with
  | nil =>
    intro A B _
    refine ⟨A, B, rfl, rfl, rfl, fun _ => rfl, fun _ => rfl, ?_, ?_⟩ <;>
      intro r' i' <;> simp
  | cons i is ih =>
    intro A B hok
    have hok_tail : ∀ j ∈ is, env.testTensor s j = .ok () :=
      fun j hj => hok j (List.mem_cons_of_mem _ hj)
    cases hjr : cfg.just_ref with
    | false =>
      have hok_i := hok i (List.mem_cons_self _ _)
      obtain ⟨A', B', heq, hlA, hlB, hrowA, hrowB, hcellA, hcellB⟩ :=
        ih (set2 A r i (env.accNet s i)) (set2 B r i (env.accRef s i)) hok_tail
      refine ⟨A', B', ?_, ?_, ?_, ?_, ?_, ?_, ?_⟩
      · unfold evalLoop evalBatch
        rw [hjr, hok_i]
        simp only [Bool.false_eq_true, if_false]
        exact heq
      · rw [hlA, length_set2]
      · rw [hlB, length_set2]
      · intro k; rw [hrowA k, rowlen_set2]
      · intro k; rw [hrowB k, rowlen_set2]
      · intro r' i'
        rw [hcellA r' i']
        simp only [length_set2, rowlen_set2, hjr, eq_self_iff_true, true_and,
          and_true, List.mem_cons]
        exact cell_formula_cons A r i (env.accNet s) (fun j => j ∈ is) r' i'
      · intro r' i'
        rw [hcellB r' i']
        simp only [length_set2, rowlen_set2, List.mem_cons]
        exact cell_formula_cons B r i (env.accRef s) (fun j => j ∈ is) r' i'
    | true =>
      obtain ⟨A', B', heq, hlA, hlB, hrowA, hrowB, hcellA, hcellB⟩ :=
        ih A (set2 B r i (env.accRef s i)) hok_tail
      refine ⟨A', B', ?_, hlA, ?_, hrowA, ?_, ?_, ?_⟩
      · unfold evalLoop evalBatch
        rw [hjr]
        simp only [if_true]
        exact heq
      · rw [hlB, length_set2]
      · intro k; rw [hrowB k, rowlen_set2]
      · intro r' i'
        rw [hcellA r' i']
        simp [hjr]
      · intro r' i'
        rw [hcellB r' i']
        simp only [length_set2, rowlen_set2, List.mem_cons]
        exact cell_formula_cons B r i (env.accRef s) (fun j => j ∈ is) r' i'

theorem evalLoop_err_char (cfg : Config) (env : Env) (s r : ℕ)
    (hjr : cfg.just_ref = false) (e : String) (i : ℕ)
    (herr : env.testTensor s i = .error e) :
    ∀ (is1 : List ℕ) (is2 : List ℕ) (A : List (List (Option (List ℚ))))
      (B : List (List (Option ℚ))),
    (∀ j ∈ is1, env.testTensor s j = .ok ()) →
    evalLoop cfg env s r (is1 ++ i :: is2) A B = .error (e, adviceMsg e) := by
  intro is1
  induction is1 with
  | nil =>
    intro is2 A B _
    simp only [List.nil_append, evalLoop, evalBatch, hjr, herr]
    simp
  | cons j js ih =>
    intro is2 A B hok
    have hok_j := hok j (List.mem_cons_self _ _)
    simp only [List.cons_append, evalLoop, evalBatch, hjr, hok_j]
    simp only [Bool.false_eq_true, if_false]
    exact ih is2 _ _ fun x hx => hok x (List.mem_cons_of_mem _ hx)

theorem runStep_of_crashed (cfg : Config) (env : Env) (st : State) (e : String)
    (h : st.crashed = some e) : runStep cfg env st = st := by
  unfold runStep
  rw [h]

theorem runFrom_of_crashed (cfg : Config) (env : Env) (st : State) (e : String)
    (h : st.crashed = some e) (m : ℕ) : runFrom cfg env st m = st := by
  induction m with
  | zero => rfl
  | succ m ih => rw [runFrom, ih, runStep_of_crashed cfg env st e h]

theorem runStep_char (cfg : Config) (env : Env) (st : State)
    (hc : st.crashed = none) (hd : env.trainData ≠ [])
    (hok : ∀ i, env.testTensor st.stepIdx i = .ok ()) :
    ∃ b p A' B', b ∈ env.trainData ∧
      runStep cfg env st =
        { lrPhase cfg st.stepIdx st with
          stepIdx := st.stepIdx + 1
          trainPos := p
          labelCounts := bumpAll st.labelCounts b
          accTest := A'
          accTestRef := B'
          writes := st.writes ++
            (if st.stepIdx % cfg.n_test_interval = 0
             then saveEvents cfg st.stepIdx A' B' else []) } ∧
      (st.stepIdx % cfg.n_test_interval ≠ 0 →
        A' = st.accTest ∧ B' = st.accTestRef) ∧
      (st.stepIdx % cfg.n_test_interval = 0 →
        A'.length = st.accTest.length ∧ B'.length = st.accTestRef.length ∧
        (∀ k, (getIdx [] A' k).length = (getIdx [] st.accTest k).length) ∧
        (∀ k, (getIdx [] B' k).length = (getIdx [] st.accTestRef k).length) ∧
        (∀ r' i', get2 A' r' i' =
          if r' = st.stepIdx / cfg.n_test_interval ∧ i' < nTest cfg ∧
             cfg.just_ref = false ∧
             st.stepIdx / cfg.n_test_interval < st.accTest.length ∧
             i' < (getIdx [] st.accTest (st.stepIdx / cfg.n_test_interval)).length
          then some (env.accNet st.stepIdx i') else get2 st.accTest r' i') ∧
        (∀ r' i', get2 B' r' i' =
          if r' = st.stepIdx / cfg.n_test_interval ∧ i' < nTest cfg ∧
             st.stepIdx / cfg.n_test_interval < st.accTestRef.length ∧
             i' < (getIdx [] st.accTestRef (st.stepIdx / cfg.n_test_interval)).length
          then some (env.accRef st.stepIdx i') else get2 st.accTestRef r' i')) := by
  obtain ⟨b, p, hb, hfetch⟩ := fetchPhase_char env (lrPhase cfg st.stepIdx st) hd
  by_cases hs : st.stepIdx % cfg.n_test_interval = 0
  · obtain ⟨A', B', hloop, hlA, hlB, hrowA, hrowB, hcellA, hcellB⟩ :=
      evalLoop_ok_char cfg env st.stepIdx (st.stepIdx / cfg.n_test_interval)
        (List.range (nTest cfg)) st.accTest st.accTestRef (fun i _ => hok i)
    refine ⟨b, p, A', B', hb, ?_, fun h => absurd hs h,
      fun _ => ⟨hlA, hlB, hrowA, hrowB, ?_, ?_⟩⟩
    · simp only [runStep, hc]
      rw [hfetch]
      simp only [lrPhase_crashed, lrPhase_accTest, lrPhase_accTestRef,
        lrPhase_labelCounts, lrPhase_stepIdx, lrPhase_trainPos, lrPhase_writes,
        lrPhase_log, hc, testPhase, hs]
      rw [hloop]
      simp only [lrPhase_crashed, lrPhase_accTest, lrPhase_accTestRef,
        lrPhase_labelCounts, lrPhase_stepIdx, lrPhase_trainPos, lrPhase_writes,
        lrPhase_log, hc]
      simp
    · intro r' i'
      rw [hcellA r' i']
      simp only [List.mem_range]
    · intro r' i'
      rw [hcellB r' i']
      simp only [List.mem_range]
  · refine ⟨b, p, st.accTest, st.accTestRef, hb, ?_, fun _ => ⟨rfl, rfl⟩,
      fun h => absurd h hs⟩
    simp only [runStep, hc]
    rw [hfetch]
    simp only [lrPhase_crashed, lrPhase_accTest, lrPhase_accTestRef,
      lrPhase_labelCounts, lrPhase_stepIdx, lrPhase_trainPos, lrPhase_writes,
      lrPhase_log, hc, testPhase, hs, if_false, List.append_nil]

theorem le_ceilDiv_mul (n I : ℕ) (hI : 0 < I) : n ≤ ceilDiv n I * I := by
  cases n with
  | zero => simp
  | succ m =>
    unfold ceilDiv
    have h1 : m + 1 + I - 1 = m + I := by omega
    rw [h1, Nat.add_div_right m hI, Nat.succ_mul]
    have h2 := Nat.div_add_mod' m I
    have h3 := Nat.mod_lt m hI
    omega

theorem roundIdx_lt_nTestsTotal (cfg : Config) (hI : 0 < cfg.n_test_interval)
    (s : ℕ) (hs : s < cfg.n_steps) :
    s / cfg.n_test_interval < nTestsTotal cfg := by
  rw [Nat.div_lt_iff_lt_mul hI]
  exact lt_of_lt_of_le hs
    (le_ceilDiv_mul cfg.n_steps cfg.n_test_interval hI)

theorem run_succ (cfg : Config) (env : Env) (n : ℕ) :
    run cfg env (n + 1) = runStep cfg env (run cfg env n) := rfl

theorem runFrom_ok (cfg : Config) (env : Env) (st : State)
    (hc : st.crashed = none) (hd : env.trainData ≠ [])
    (h2 : ∀ s i, env.testTensor s i = .ok ()) (m : ℕ) :
    (runFrom cfg env st m).crashed = none ∧
    (runFrom cfg env st m).stepIdx = st.stepIdx + m ∧
    (runFrom cfg env st m).log = st.log := by
  induction m with
  | zero => exact ⟨hc, rfl, rfl⟩
  | succ m ih =>
    obtain ⟨ihc, ihs, ihl⟩ := ih
    obtain ⟨b, p, A', B', hb, heq, _, _⟩ :=
      runStep_char cfg env (runFrom cfg env st m) ihc hd (fun i => h2 _ i)
    rw [runFrom, heq]
    refine ⟨?_, ?_, ?_⟩
    · simp [hc, ihc]
    · simp [ihs]
      omega
    · simp [ihl]

theorem inv_cell_step {α : Type} (I n T t : ℕ) (hI : 0 < I) (hs : n % I = 0)
    (A A' : List (List (Option α))) (f : ℕ → ℕ → α) (Q : Prop) [Decidable Q]
    (hlen : A.length = T)
    (hrow : ∀ k, (getIdx [] A k).length = if k < T then t else 0)
    (hnT : n / I < T)
    (hold : ∀ r i, get2 A r i =
      if r * I < n ∧ i < t ∧ Q then some (f (r * I) i) else none)
    (hcell : ∀ r i, get2 A' r i =
      if r = n / I ∧ i < t ∧ Q ∧ n / I < A.length ∧
         i < (getIdx [] A (n / I)).length
      then some (f n i) else get2 A r i) :
    ∀ r i, get2 A' r i =
      if r * I < n + 1 ∧ i < t ∧ Q then some (f (r * I) i) else none := by
  intro r i
  rw [hcell r i]
  have hb2 : (getIdx [] A (n / I)).length = t := by rw [hrow, if_pos hnT]
  have hnI : n / I * I = n := Nat.div_mul_cancel (Nat.dvd_of_mod_eq_zero hs)
  by_cases h1 : r = n / I
  · subst h1
    by_cases h4 : i < t
    · by_cases hQ : Q
      · rw [if_pos ⟨rfl, h4, hQ, by rw [hlen]; exact hnT, by rw [hb2]; exact h4⟩,
          if_pos ⟨by rw [hnI]; omega, h4, hQ⟩, hnI]
      · rw [if_neg fun h => hQ h.2.2.1, hold, if_neg fun h => hQ h.2.2,
          if_neg fun h => hQ h.2.2]
    · rw [if_neg fun h => h4 h.2.1, hold, if_neg fun h => h4 h.2.1,
        if_neg fun h => h4 h.2.1]
  · rw [if_neg fun h => h1 h.1, hold r i]
    have hiff : (r * I < n + 1) ↔ (r * I < n) := by
      constructor
      · intro h
        rcases Nat.lt_succ_iff_lt_or_eq.mp h with h' | h'
        · exact h'
        · exact absurd (by rw [← h', Nat.mul_div_cancel _ hI]) h1
      · omega
    simp only [hiff]

theorem inv_cell_skip {α : Type} (I n t : ℕ) (hs : n % I ≠ 0)
    (A : List (List (Option α))) (f : ℕ → ℕ → α) (Q : Prop) [Decidable Q]
    (hold : ∀ r i, get2 A r i =
      if r * I < n ∧ i < t ∧ Q then some (f (r * I) i) else none) :
    ∀ r i, get2 A r i =
      if r * I < n + 1 ∧ i < t ∧ Q then some (f (r * I) i) else none := by
  intro r i
  rw [hold r i]
  have hiff : (r * I < n + 1) ↔ (r * I < n) := by
    constructor
    · intro h
      rcases Nat.lt_succ_iff_lt_or_eq.mp h with h' | h'
      · exact h'
      · exact absurd (h' ▸ Nat.mul_mod_left r I) hs
    · omega
  simp only [hiff]

theorem inv_cell_step2 {α : Type} (I n T t : ℕ) (hI : 0 < I) (hs : n % I = 0)
    (A A' : List (List (Option α))) (f : ℕ → ℕ → α)
    (hlen : A.length = T)
    (hrow : ∀ k, (getIdx [] A k).length = if k < T then t else 0)
    (hnT : n / I < T)
    (hold : ∀ r i, get2 A r i =
      if r * I < n ∧ i < t then some (f (r * I) i) else none)
    (hcell : ∀ r i, get2 A' r i =
      if r = n / I ∧ i < t ∧ n / I < A.length ∧
         i < (getIdx [] A (n / I)).length
      then some (f n i) else get2 A r i) :
    ∀ r i, get2 A' r i =
      if r * I < n + 1 ∧ i < t then some (f (r * I) i) else none := by
  have h1 := inv_cell_step I n T t hI hs A A' f True hlen hrow hnT
    (fun r i => by rw [hold r i]; simp only [and_true])
    (fun r i => by rw [hcell r i]; simp only [true_and])
  intro r i
  rw [h1 r i]
  simp only [and_true]

theorem inv_cell_skip2 {α : Type} (I n t : ℕ) (hs : n % I ≠ 0)
    (A : List (List (Option α))) (f : ℕ → ℕ → α)
    (hold : ∀ r i, get2 A r i =
      if r * I < n ∧ i < t then some (f (r * I) i) else none) :
    ∀ r i, get2 A r i =
      if r * I < n + 1 ∧ i < t then some (f (r * I) i) else none := by
  have h1 := inv_cell_skip I n t hs A f True
    (fun r i => by rw [hold r i]; simp only [and_true])
  intro r i
  rw [h1 r i]
  simp only [and_true]

theorem run_inv (cfg : Config) (env : Env) (hd : env.trainData ≠ [])
    (hI : 0 < cfg.n_test_interval) :
    ∀ n, n ≤ cfg.n_steps →
    (∀ s, s < n → ∀ i, env.testTensor s i = .ok ()) →
    (run cfg env n).crashed = none ∧
    (run cfg env n).stepIdx = n ∧
    (run cfg env n).accTest.length = nTestsTotal cfg ∧
    (∀ k, (getIdx [] (run cfg env n).accTest k).length =
      if k < nTestsTotal cfg then nTest cfg else 0) ∧
    (run cfg env n).accTestRef.length = nTestsTotal cfg ∧
    (∀ k, (getIdx [] (run cfg env n).accTestRef k).length =
      if k < nTestsTotal cfg then nTest cfg else 0) ∧
    (∀ r i, get2 (run cfg env n).accTest r i =
      if r * cfg.n_test_interval < n ∧ i < nTest cfg ∧ cfg.just_ref = false
      then some (env.accNet (r * cfg.n_test_interval) i) else none) ∧
    (∀ r i, get2 (run cfg env n).accTestRef r i =
      if r * cfg.n_test_interval < n ∧ i < nTest cfg
      then some (env.accRef (r * cfg.n_test_interval) i) else none) := by
  intro n
  induction n with
  | zero =>
    intro _ _
    refine ⟨rfl, rfl, by simp [run, runFrom, initState], ?_,
      by simp [run, runFrom, initState], ?_, ?_, ?_⟩
    · intro k
      show (getIdx [] (initState cfg).accTest k).length = _
      unfold initState
      rw [getIdx_replicate]
      split <;> simp
    · intro k
      show (getIdx [] (initState cfg).accTestRef k).length = _
      unfold initState
      rw [getIdx_replicate]
      split <;> simp
    · intro r i
      have hz : get2 (initState cfg).accTest r i = none := by
        unfold initState get2
        rw [getIdx_replicate]
        split
        · rw [getIdx_replicate]; split <;> rfl
        · rfl
      show get2 (initState cfg).accTest r i = _
      rw [hz, if_neg fun h => Nat.not_lt_zero _ h.1]
    · intro r i
      have hz : get2 (initState cfg).accTestRef r i = none := by
        unfold initState get2
        rw [getIdx_replicate]
        split
        · rw [getIdx_replicate]; split <;> rfl
        · rfl
      show get2 (initState cfg).accTestRef r i = _
      rw [hz, if_neg fun h => Nat.not_lt_zero _ h.1]
  | succ n ih =>
    intro hn1 h2
    have hn : n ≤ cfg.n_steps := by omega
    have h2' : ∀ s, s < n → ∀ i, env.testTensor s i = .ok () :=
      fun s hs i => h2 s (by omega) i
    obtain ⟨ihc, ihs, ihlenA, ihrowA, ihlenB, ihrowB, ihcellA, ihcellB⟩ :=
      ih hn h2'
    obtain ⟨b, p, A', B', hb, heq, hskip, heval⟩ :=
      runStep_char cfg env (run cfg env n) ihc hd
        (fun i => by rw [ihs]; exact h2 n (by omega) i)
    rw [run_succ, heq]
    rw [ihs] at hskip heval ⊢
    have hnT : n / cfg.n_test_interval < nTestsTotal cfg :=
      roundIdx_lt_nTestsTotal cfg hI n (by omega)
    by_cases hs' : n % cfg.n_test_interval = 0
    · obtain ⟨hlA, hlB, hrowA', hrowB', hcA, hcB⟩ := heval hs'
      refine ⟨by simp [ihc], by simp, ?_, ?_, ?_, ?_, ?_, ?_⟩
      · show A'.length = _
        rw [hlA, ihlenA]
      · intro k
        show (getIdx [] A' k).length = _
        rw [hrowA' k, ihrowA k]
      · show B'.length = _
        rw [hlB, ihlenB]
      · intro k
        show (getIdx [] B' k).length = _
        rw [hrowB' k, ihrowB k]
      · show ∀ r i, get2 A' r i = _
        exact inv_cell_step cfg.n_test_interval n (nTestsTotal cfg) (nTest cfg)
          hI hs' (run cfg env n).accTest A' env.accNet (cfg.just_ref = false)
          ihlenA ihrowA hnT ihcellA hcA
      · show ∀ r i, get2 B' r i = _
        exact inv_cell_step2 cfg.n_test_interval n (nTestsTotal cfg) (nTest cfg)
          hI hs' (run cfg env n).accTestRef B' env.accRef
          ihlenB ihrowB hnT ihcellB hcB
    · obtain ⟨hA, hB⟩ := hskip hs'
      refine ⟨by simp [ihc], by simp, ?_, ?_, ?_, ?_, ?_, ?_⟩
      · show A'.length = _
        rw [hA, ihlenA]
      · intro k
        show (getIdx [] A' k).length = _
        rw [hA, ihrowA k]
      · show B'.length = _
        rw [hB, ihlenB]
      · intro k
        show (getIdx [] B' k).length = _
        rw [hB, ihrowB k]
      · show ∀ r i, get2 A' r i = _
        rw [hA]
        exact inv_cell_skip cfg.n_test_interval n (nTest cfg) hs'
          (run cfg env n).accTest env.accNet (cfg.just_ref = false) ihcellA
      · show ∀ r i, get2 B' r i = _
        rw [hB]
        exact inv_cell_skip2 cfg.n_test_interval n (nTest cfg) hs'
          (run cfg env n).accTestRef env.accRef ihcellB

theorem halve_pow (x : ℚ) (k : ℕ) : x / 2 ^ k / 2 = x / 2 ^ (k + 1) := by
  rw [div_div, pow_succ]

theorem succ_div_1000_eq (n : ℕ) :
    (n + 1) / 1000 = n / 1000 + (if (n + 1) % 1000 = 0 then 1 else 0) := by
  rw [Nat.succ_div]
  congr 1
  have hdv : (1000 : ℕ) ∣ (n + 1) ↔ (n + 1) % 1000 = 0 :=
    Nat.dvd_iff_mod_eq_zero
  simp only [hdv]

theorem run_lrs (cfg : Config) (env : Env) (hd : env.trainData ≠ [])
    (h2 : ∀ s i, env.testTensor s i = .ok ()) (n : ℕ) :
    (run cfg env n).sliceLrs =
      (if cfg.just_ref = false
       then cfg.lr0.map (fun x => x / 2 ^ (n / 1000)) else cfg.lr0) ∧
    (run cfg env n).lr2 =
      (if cfg.just_ref = false
       then cfg.lr2_0 / 2 ^ (n / 1000) else cfg.lr2_0) ∧
    (run cfg env n).refLr = cfg.refLr0 / 2 ^ (n / 1000) := by
  induction n with
  | zero =>
    refine ⟨?_, ?_, ?_⟩ <;>
      simp [run, runFrom, initState, Nat.zero_div, pow_zero, div_one]
  | succ n ih =>
    obtain ⟨ih1, ih2, ih3⟩ := ih
    have hok := runFrom_ok cfg env (initState cfg) rfl hd h2 n
    rw [show runFrom cfg env (initState cfg) n = run cfg env n from rfl] at hok
    obtain ⟨hcn, hsn, _⟩ := hok
    obtain ⟨b, p, A', B', hb, heq, _, _⟩ :=
      runStep_char cfg env (run cfg env n) hcn hd (fun i => h2 _ i)
    rw [run_succ, heq]
    have hsn' : (run cfg env n).stepIdx = n := by rw [hsn]; simp [initState]
    refine ⟨?_, ?_, ?_⟩
    · show (lrPhase cfg (run cfg env n).stepIdx (run cfg env n)).sliceLrs = _
      rw [lrPhase_sliceLrs, hsn', ih1]
      by_cases hjr : cfg.just_ref = false
      · by_cases hmod : (n + 1) % 1000 = 0
        · rw [if_pos ⟨hmod, hjr⟩, if_pos hjr, if_pos hjr, List.map_map]
          have hdiv : (n + 1) / 1000 = n / 1000 + 1 := by
            rw [succ_div_1000_eq, if_pos hmod]
          rw [hdiv]
          have hfun : ((fun x : ℚ => x / 2) ∘ fun x : ℚ => x / 2 ^ (n / 1000)) =
              fun x : ℚ => x / 2 ^ (n / 1000 + 1) :=
            funext fun x => halve_pow x (n / 1000)
          rw [hfun]
        · rw [if_neg fun h => hmod h.1, if_pos hjr, if_pos hjr]
          have hdiv : (n + 1) / 1000 = n / 1000 := by
            rw [succ_div_1000_eq, if_neg hmod, Nat.add_zero]
          rw [hdiv]
      · rw [if_neg fun h => hjr h.2, if_neg hjr, if_neg hjr]
    · show (lrPhase cfg (run cfg env n).stepIdx (run cfg env n)).lr2 = _
      rw [lrPhase_lr2, hsn', ih2]
      by_cases hjr : cfg.just_ref = false
      · by_cases hmod : (n + 1) % 1000 = 0
        · rw [if_pos ⟨hmod, hjr⟩, if_pos hjr, if_pos hjr,
            halve_pow cfg.lr2_0 (n / 1000),
            show (n + 1) / 1000 = n / 1000 + 1 by
              rw [succ_div_1000_eq, if_pos hmod]]
        · rw [if_neg fun h => hmod h.1, if_pos hjr, if_pos hjr,
            show (n + 1) / 1000 = n / 1000 by
              rw [succ_div_1000_eq, if_neg hmod, Nat.add_zero]]
      · rw [if_neg fun h => hjr h.2, if_neg hjr, if_neg hjr]
    · show (lrPhase cfg (run cfg env n).stepIdx (run cfg env n)).refLr = _
      rw [lrPhase_refLr, hsn', ih3]
      by_cases hmod : (n + 1) % 1000 = 0
      · rw [if_pos hmod, halve_pow cfg.refLr0 (n / 1000),
          show (n + 1) / 1000 = n / 1000 + 1 by
            rw [succ_div_1000_eq, if_pos hmod]]
      · rw [if_neg hmod,
          show (n + 1) / 1000 = n / 1000 by
            rw [succ_div_1000_eq, if_neg hmod, Nat.add_zero]]

theorem run_counts (cfg : Config) (env : Env) (hd : env.trainData ≠ [])
    (h2 : ∀ s i, env.testTensor s i = .ok ())
    (hbatch : ∀ b ∈ env.trainData, b.length = cfg.batch_size)
    (hlab : ∀ b ∈ env.trainData, ∀ l ∈ b, l < cfg.target_size) (n : ℕ) :
    (run cfg env n).labelCounts.length = cfg.target_size ∧
    (run cfg env n).labelCounts.sum = (n * cfg.batch_size : ℕ) ∧
    (∀ j, 0 ≤ getIdx 0 (run cfg env n).labelCounts j) := by
  induction n with
  | zero =>
    refine ⟨by simp [run, runFrom, initState], by simp [run, runFrom, initState], ?_⟩
    intro j
    show 0 ≤ getIdx 0 (initState cfg).labelCounts j
    unfold initState
    rw [getIdx_replicate]
    split <;> omega
  | succ n ih =>
    obtain ⟨ihlen, ihsum, ihpos⟩ := ih
    have hok := runFrom_ok cfg env (initState cfg) rfl hd h2 n
    rw [show runFrom cfg env (initState cfg) n = run cfg env n from rfl] at hok
    obtain ⟨hcn, _, _⟩ := hok
    obtain ⟨b, p, A', B', hb, heq, _, _⟩ :=
      runStep_char cfg env (run cfg env n) hcn hd (fun i => h2 _ i)
    rw [run_succ, heq]
    have hblen : b.length = cfg.batch_size := hbatch b hb
    have hbl : ∀ l ∈ b, l < (run cfg env n).labelCounts.length :=
      fun l hl => ihlen ▸ hlab b hb l hl
    refine ⟨?_, ?_, ?_⟩
    · show (bumpAll (run cfg env n).labelCounts b).length = _
      rw [length_bumpAll, ihlen]
    · show (bumpAll (run cfg env n).labelCounts b).sum = _
      rw [sum_bumpAll _ _ hbl, ihsum, hblen]
      push_cast
      ring
    · intro j
      show 0 ≤ getIdx 0 (bumpAll (run cfg env n).labelCounts b) j
      exact le_trans (ihpos j) (getIdx_bumpAll_ge _ b j)

theorem run_counts_mono (cfg : Config) (env : Env) (hd : env.trainData ≠ [])
    (h2 : ∀ s i, env.testTensor s i = .ok ()) (n j : ℕ) :
    getIdx 0 (run cfg env n).labelCounts j ≤
      getIdx 0 (run cfg env (n + 1)).labelCounts j := by
  have hok := runFrom_ok cfg env (initState cfg) rfl hd h2 n
  rw [show runFrom cfg env (initState cfg) n = run cfg env n from rfl] at hok
  obtain ⟨hcn, _, _⟩ := hok
  obtain ⟨b, p, A', B', hb, heq, _, _⟩ :=
    runStep_char cfg env (run cfg env n) hcn hd (fun i => h2 _ i)
  rw [run_succ, heq]
  exact getIdx_bumpAll_ge _ b j

theorem runFrom_add (cfg : Config) (env : Env) (st : State) (a b : ℕ) :
    runFrom cfg env st (a + b) = runFrom cfg env (runFrom cfg env st a) b := by
  induction b with
  | zero => rfl
  | succ b ih => rw [show a + (b + 1) = (a + b) + 1 from rfl, runFrom, ih, runFrom]

theorem range_split (t i : ℕ) (hi : i < t) :
    List.range t = List.range i ++ i :: List.drop (i + 1) (List.range t) := by
  conv_lhs => rw [← List.take_append_drop (i + 1) (List.range t)]
  rw [List.take_range, Nat.min_eq_left (by omega), List.range_succ,
    List.append_assoc, List.singleton_append]

theorem evalLoop_err_range (cfg : Config) (env : Env) (s r : ℕ)
    (hjr : cfg.just_ref = false) (e : String) (t i : ℕ) (hi : i < t)
    (hfirst : ∀ j, j < i → env.testTensor s j = .ok ())
    (herr : env.testTensor s i = .error e)
    (A : List (List (Option (List ℚ)))) (B : List (List (Option ℚ))) :
    evalLoop cfg env s r (List.range t) A B = .error (e, adviceMsg e) := by
  rw [range_split t i hi]
  exact evalLoop_err_char cfg env s r hjr e i herr (List.range i) _ A B
    fun j hj => hfirst j (List.mem_range.mp hj)

theorem runStep_err_char (cfg : Config) (env : Env) (st : State)
    (hc : st.crashed = none) (hd : env.trainData ≠ [])
    (hs : st.stepIdx % cfg.n_test_interval = 0) (hjr : cfg.just_ref = false)
    (i : ℕ) (hi : i < nTest cfg)
    (hfirst : ∀ j, j < i → env.testTensor st.stepIdx j = .ok ())
    (e : String) (herr : env.testTensor st.stepIdx i = .error e) :
    ∃ b p, b ∈ env.trainData ∧
      runStep cfg env st =
        { lrPhase cfg st.stepIdx st with
          trainPos := p
          labelCounts := bumpAll st.labelCounts b
          crashed := some e
          log := st.log ++ [adviceMsg e] } := by
  obtain ⟨b, p, hb, hfetch⟩ := fetchPhase_char env (lrPhase cfg st.stepIdx st) hd
  refine ⟨b, p, hb, ?_⟩
  have hloop := evalLoop_err_range cfg env st.stepIdx
    (st.stepIdx / cfg.n_test_interval) hjr e (nTest cfg) i hi hfirst herr
    st.accTest st.accTestRef
  simp only [runStep, hc]
  rw [hfetch]
  simp only [lrPhase_crashed, lrPhase_accTest, lrPhase_accTestRef,
    lrPhase_labelCounts, lrPhase_stepIdx, lrPhase_trainPos, lrPhase_writes,
    lrPhase_log, hc, testPhase, hs]
  rw [hloop]
  simp

theorem run_writes_just_ref (cfg : Config) (env : Env) (hd : env.trainData ≠ [])
    (h2 : ∀ s i, env.testTensor s i = .ok ()) (hjr : cfg.just_ref = true)
    (n : ℕ) : (run cfg env n).writes = [] := by
  induction n with
  | zero => simp [run, runFrom, initState]
  | succ n ih =>
    have hok := runFrom_ok cfg env (initState cfg) rfl hd h2 n
    rw [show runFrom cfg env (initState cfg) n = run cfg env n from rfl] at hok
    obtain ⟨hcn, _, _⟩ := hok
    obtain ⟨b, p, A', B', hb, heq, _, _⟩ :=
      runStep_char cfg env (run cfg env n) hcn hd (fun i => h2 _ i)
    rw [run_succ, heq]
    show (run cfg env n).writes ++ _ = []
    rw [ih]
    have hse : saveEvents cfg (run cfg env n).stepIdx A' B' = [] := by
      unfold saveEvents
      rw [if_neg fun h => by simp [hjr] at h]
    rw [hse]
    simp

theorem round_writes (cfg : Config) (env : Env) (hd : env.trainData ≠ [])
    (hI : 0 < cfg.n_test_interval) (hjr : cfg.just_ref = false)
    (hns : cfg.no_save = false) (r : ℕ)
    (hr : r * cfg.n_test_interval < cfg.n_steps)
    (h2 : ∀ s, s < r * cfg.n_test_interval + 1 →
      ∀ i, env.testTensor s i = .ok ()) :
    (run cfg env (r * cfg.n_test_interval + 1)).writes =
      (run cfg env (r * cfg.n_test_interval)).writes ++
        [WriteEvent.npySave3 "acc_test.npy"
            (run cfg env (r * cfg.n_test_interval + 1)).accTest,
          WriteEvent.npySave2 "acc_test_ref.npy"
            (run cfg env (r * cfg.n_test_interval + 1)).accTestRef,
          WriteEvent.torchSave (checkpointName (r * cfg.n_test_interval))] := by
  obtain ⟨hc, hstep, _, _, _, _, _, _⟩ :=
    run_inv cfg env hd hI (r * cfg.n_test_interval) (le_of_lt hr)
      (fun s hs i => h2 s (by omega) i)
  obtain ⟨b, p, A', B', hb, heq, _, _⟩ :=
    runStep_char cfg env (run cfg env (r * cfg.n_test_interval)) hc hd
      (fun i => by rw [hstep]; exact h2 _ (by omega) i)
  rw [run_succ, heq, hstep]
  show (run cfg env (r * cfg.n_test_interval)).writes ++ _ =
    (run cfg env (r * cfg.n_test_interval)).writes ++ _
  rw [if_pos (Nat.mul_mod_left r cfg.n_test_interval)]
  unfold saveEvents
  rw [if_pos ⟨hjr, hns⟩]

/-- C1: for every step `s` in `[0, n_steps)`, an evaluation round runs if and
only if `s % n_test_interval == 0`, recording its results at round index
`s // n_test_interval`; at any other step the accuracy arrays and the write
log are untouched. -/
theorem c1_eval_schedule (cfg : Config) (env : Env) (hd : env.trainData ≠ [])
    (hI : 0 < cfg.n_test_interval)
    (h2 : ∀ s' i, env.testTensor s' i = .ok ())
    (s : ℕ) (hs : s < cfg.n_steps) :
    (s % cfg.n_test_interval = 0 →
      (∀ i, i < nTest cfg →
        get2 (run cfg env (s + 1)).accTestRef (s / cfg.n_test_interval) i =
          some (env.accRef s i)) ∧
      (cfg.just_ref = false → ∀ i, i < nTest cfg →
        get2 (run cfg env (s + 1)).accTest (s / cfg.n_test_interval) i =
          some (env.accNet s i)) ∧
      (∀ r' i, r' ≠ s / cfg.n_test_interval →
        get2 (run cfg env (s + 1)).accTestRef r' i =
          get2 (run cfg env s).accTestRef r' i)) ∧
    (s % cfg.n_test_interval ≠ 0 →
      (run cfg env (s + 1)).accTest = (run cfg env s).accTest ∧
      (run cfg env (s + 1)).accTestRef = (run cfg env s).accTestRef ∧
      (run cfg env (s + 1)).writes = (run cfg env s).writes) := by
  obtain ⟨hc, hstep, _, _, _, _, _, ihcellB⟩ :=
    run_inv cfg env hd hI s (le_of_lt hs) (fun s' _ i => h2 s' i)
  obtain ⟨hc1, _, _, _, _, _, hcellA1, hcellB1⟩ :=
    run_inv cfg env hd hI (s + 1) hs (fun s' _ i => h2 s' i)
  constructor
  · intro hzero
    have hnI : s / cfg.n_test_interval * cfg.n_test_interval = s :=
      Nat.div_mul_cancel (Nat.dvd_of_mod_eq_zero hzero)
    refine ⟨?_, ?_, ?_⟩
    · intro i hi
      rw [hcellB1, if_pos ⟨by rw [hnI]; omega, hi⟩, hnI]
    · intro hjr i hi
      rw [hcellA1, if_pos ⟨by rw [hnI]; omega, hi, hjr⟩, hnI]
    · intro r' i hr'
      rw [hcellB1, ihcellB]
      have hiff : (r' * cfg.n_test_interval < s + 1) ↔
          (r' * cfg.n_test_interval < s) := by
        constructor
        · intro h
          rcases Nat.lt_succ_iff_lt_or_eq.mp h with h' | h'
          · exact h'
          · exact absurd (by rw [← h', Nat.mul_div_cancel _ hI]) hr'
        · omega
      simp only [hiff]
  · intro hnz
    obtain ⟨b, p, A', B', hb, heq, hskip, _⟩ :=
      runStep_char cfg env (run cfg env s) hc hd
        (fun i => h2 (run cfg env s).stepIdx i)
    obtain ⟨hA, hB⟩ := hskip (by rw [hstep]; exact hnz)
    rw [run_succ, heq]
    refine ⟨?_, ?_, ?_⟩
    · show A' = _
      exact hA
    · show B' = _
      exact hB
    · show (run cfg env s).writes ++ _ = (run cfg env s).writes
      rw [if_neg (by rw [hstep]; exact hnz)]
      simp

/-- C2: with a trainable network present, after `n` completed steps every
slice optimizer's learning rate, the last slice's secondary optimizer's rate
and the reference optimizer's rate equal their step-0 values divided by
`2 ^ (n / 1000)`; in particular after `1000 * k` steps they equal the step-0
values divided by `2 ^ k`, and no halving happens at a step `s` with
`(s + 1) % 1000 ≠ 0`. -/
theorem c2_lr_halving (cfg : Config) (env : Env) (hd : env.trainData ≠ [])
    (h2 : ∀ s i, env.testTensor s i = .ok ()) (hjr : cfg.just_ref = false) :
    (∀ n, (run cfg env n).sliceLrs =
        cfg.lr0.map (fun x => x / 2 ^ (n / 1000)) ∧
      (run cfg env n).lr2 = cfg.lr2_0 / 2 ^ (n / 1000) ∧
      (run cfg env n).refLr = cfg.refLr0 / 2 ^ (n / 1000)) ∧
    (∀ k, (run cfg env (1000 * k)).sliceLrs =
        (run cfg env 0).sliceLrs.map (fun x => x / 2 ^ k) ∧
      (run cfg env (1000 * k)).lr2 = (run cfg env 0).lr2 / 2 ^ k ∧
      (run cfg env (1000 * k)).refLr = (run cfg env 0).refLr / 2 ^ k) ∧
    (∀ n, (n + 1) % 1000 ≠ 0 →
      (run cfg env (n + 1)).sliceLrs = (run cfg env n).sliceLrs ∧
      (run cfg env (n + 1)).lr2 = (run cfg env n).lr2 ∧
      (run cfg env (n + 1)).refLr = (run cfg env n).refLr) := by
  have hbase : ∀ n, (run cfg env n).sliceLrs =
      cfg.lr0.map (fun x => x / 2 ^ (n / 1000)) ∧
      (run cfg env n).lr2 = cfg.lr2_0 / 2 ^ (n / 1000) ∧
      (run cfg env n).refLr = cfg.refLr0 / 2 ^ (n / 1000) := by
    intro n
    obtain ⟨h1, h2', h3⟩ := run_lrs cfg env hd h2 n
    rw [if_pos hjr] at h1 h2'
    exact ⟨h1, h2', h3⟩
  refine ⟨hbase, ?_, ?_⟩
  · intro k
    obtain ⟨h1, h2', h3⟩ := hbase (1000 * k)
    have hk : 1000 * k / 1000 = k := Nat.mul_div_cancel_left k (by omega)
    rw [hk] at h1 h2' h3
    have h0s : (run cfg env 0).sliceLrs = cfg.lr0 := rfl
    have h02 : (run cfg env 0).lr2 = cfg.lr2_0 := rfl
    have h0r : (run cfg env 0).refLr = cfg.refLr0 := rfl
    rw [h0s, h02, h0r]
    exact ⟨h1, h2', h3⟩
  · intro n hmod
    obtain ⟨h1, h2', h3⟩ := hbase n
    obtain ⟨g1, g2, g3⟩ := hbase (n + 1)
    have hdiv : (n + 1) / 1000 = n / 1000 := by
      rw [succ_div_1000_eq, if_neg hmod, Nat.add_zero]
    rw [g1, g2, g3, h1, h2', h3, hdiv]
    exact ⟨rfl, rfl, rfl⟩

/-- C4: fetching from the training data source never raises an unhandled
error when the dataset is nonempty, and once the iterator is exhausted the
transparently restarted iteration yields exactly the first batch the original
iterator yielded (deterministic re-iteration). -/
theorem c4_fetch_restart (data : List (List ℕ)) (hd : data ≠ []) :
    (∀ pos, ∃ b p, fetchBatch data pos = .ok (b, p)) ∧
    ∃ b0, fetchBatch data 0 = .ok (b0, 1) ∧
      ∀ pos, data.length ≤ pos → fetchBatch data pos = .ok (b0, 1) := by
  cases data with
  | nil => exact absurd rfl hd
  | cons b rest =>
    constructor
    · intro pos
      cases hg : (b :: rest)[pos]? with
      | some x => exact ⟨x, pos + 1, by unfold fetchBatch; rw [hg]⟩
      | none => exact ⟨b, 1, by unfold fetchBatch; rw [hg]⟩
    · refine ⟨b, by unfold fetchBatch; simp, ?_⟩
      intro pos hpos
      have hg : (b :: rest)[pos]? = none := List.getElem?_eq_none hpos
      unfold fetchBatch
      rw [hg]

/-- C5: the label counter starts as the all-zero vector of length
`target_size`, stays that length, keeps all entries non-negative and
non-decreasing, and after any prefix of `K` steps its entries sum to exactly
`K * batch_size`. -/
theorem c5_label_counts (cfg : Config) (env : Env) (hd : env.trainData ≠ [])
    (h2 : ∀ s i, env.testTensor s i = .ok ())
    (hbatch : ∀ b ∈ env.trainData, b.length = cfg.batch_size)
    (hlab : ∀ b ∈ env.trainData, ∀ l ∈ b, l < cfg.target_size) (K : ℕ) :
    (run cfg env 0).labelCounts = List.replicate cfg.target_size 0 ∧
    (run cfg env K).labelCounts.length = cfg.target_size ∧
    (∀ j, 0 ≤ getIdx 0 (run cfg env K).labelCounts j) ∧
    (run cfg env K).labelCounts.sum = (K * cfg.batch_size : ℕ) ∧
    (∀ j, getIdx 0 (run cfg env K).labelCounts j ≤
      getIdx 0 (run cfg env (K + 1)).labelCounts j) := by
  obtain ⟨hlen, hsum, hpos⟩ := run_counts cfg env hd h2 hbatch hlab K
  exact ⟨rfl, hlen, hpos, hsum, fun j => run_counts_mono cfg env hd h2 K j⟩

/-- C6: a restore path naming a nonexistent file is reported, restoration is
skipped (the run keeps the freshly initialized weights) and the run proceeds
through all `n_steps` steps, past step 0, without aborting; the checkpoint is
loaded only when the file exists. -/
theorem c6_missing_restore (cfg : Config) (env : Env) (hd : env.trainData ≠ [])
    (h2 : ∀ s i, env.testTensor s i = .ok ()) (h0 : 0 < cfg.n_steps)
    (p : String) (isfile : String → Bool) (loadW : String → List ℚ)
    (freshW : List ℚ) (hmiss : isfile p = false) :
    (mainRun cfg env (some p) isfile loadW freshW).1 = freshW ∧
    ("ERROR: Cannot load file `" ++ p ++ "`.") ∈
      (mainRun cfg env (some p) isfile loadW freshW).2.log ∧
    (mainRun cfg env (some p) isfile loadW freshW).2.crashed = none ∧
    (mainRun cfg env (some p) isfile loadW freshW).2.stepIdx = cfg.n_steps ∧
    0 < (mainRun cfg env (some p) isfile loadW freshW).2.stepIdx ∧
    (∀ q, isfile q = true →
      (mainRun cfg env (some q) isfile loadW freshW).1 = loadW q) := by
  have hres : restoreWeights (some p) isfile loadW freshW =
      (freshW,
        [dashLine, "ERROR: Cannot load file `" ++ p ++ "`.",
          "File does not exist! Exit loading...", dashLine]) := by
    simp only [restoreWeights, hmiss]
    simp
  have hok := runFrom_ok cfg env
    { initState cfg with log := (restoreWeights (some p) isfile loadW freshW).2 }
    rfl hd h2 cfg.n_steps
  obtain ⟨hcr, hsi, hlg⟩ := hok
  refine ⟨by unfold mainRun; rw [hres], ?_, ?_, ?_, ?_, ?_⟩
  · show ("ERROR: Cannot load file `" ++ p ++ "`.") ∈
      (runFrom cfg env
        { initState cfg with
          log := (restoreWeights (some p) isfile loadW freshW).2 }
        cfg.n_steps).log
    rw [hlg, hres]
    simp
  · exact hcr
  · show (runFrom cfg env _ cfg.n_steps).stepIdx = cfg.n_steps
    rw [hsi]
    simp [initState]
  · show 0 < (runFrom cfg env _ cfg.n_steps).stepIdx
    rw [hsi]
    simp [initState]
    omega
  · intro q hq
    show (restoreWeights (some q) isfile loadW freshW).1 = loadW q
    simp only [restoreWeights, hq]
    simp

/-- C7: if materializing the test spike tensor raises a `RuntimeError` during
an evaluation round, the advice to decrease `batch_size_test` is logged, the
same exception propagates (`crashed` holds the unchanged message), and the run
is terminated: every later step leaves the state untouched. -/
theorem c7_test_tensor_error (cfg : Config) (env : Env)
    (hd : env.trainData ≠ []) (hI : 0 < cfg.n_test_interval)
    (hjr : cfg.just_ref = false) (s : ℕ)
    (hsI : s % cfg.n_test_interval = 0) (hsN : s < cfg.n_steps)
    (h2 : ∀ s', s' < s → ∀ i, env.testTensor s' i = .ok ())
    (i : ℕ) (hi : i < nTest cfg)
    (hfirst : ∀ j, j < i → env.testTensor s j = .ok ())
    (e : String) (herr : env.testTensor s i = .error e) :
    (run cfg env (s + 1)).crashed = some e ∧
    adviceMsg e ∈ (run cfg env (s + 1)).log ∧
    (∀ m, run cfg env (s + 1 + m) = run cfg env (s + 1)) := by
  obtain ⟨hc, hstep, _, _, _, _, _, _⟩ :=
    run_inv cfg env hd hI s (le_of_lt hsN) h2
  obtain ⟨b, p, hb, heq⟩ :=
    runStep_err_char cfg env (run cfg env s) hc hd
      (by rw [hstep]; exact hsI) hjr i hi
      (fun j hj => by rw [hstep]; exact hfirst j hj) e
      (by rw [hstep]; exact herr)
  have hcr : (run cfg env (s + 1)).crashed = some e := by
    rw [run_succ, heq]
  refine ⟨hcr, ?_, ?_⟩
  · rw [run_succ, heq]
    show adviceMsg e ∈ (run cfg env s).log ++ [adviceMsg e]
    simp
  · intro m
    show runFrom cfg env (initState cfg) (s + 1 + m) = run cfg env (s + 1)
    rw [runFrom_add cfg env (initState cfg) (s + 1) m]
    exact runFrom_of_crashed cfg env _ e hcr m

/-- C3 counterexample: with saving disabled, the evaluation round at step 0
still runs — the reference accuracy cell `[0, 0]` is recorded — yet no file
is written, so the claim's unconditional "at every evaluation round both
whole arrays are rewritten to the same two files" fails. -/
theorem c3_counterexample :
    get2 (run cfgNoSave envSmall 1).accTestRef 0 0 = some 1 ∧
    (run cfgNoSave envSmall 1).writes = [] := ⟨rfl, rfl⟩

/-- C3 amended: the two accuracy artifacts have shapes
`[n_tests_total, n_test, num_slices]` and `[n_tests_total, n_test]`, and when
not in reference-only mode and saving is enabled, every evaluation round
rewrites both whole arrays to the same two files `acc_test.npy` and
`acc_test_ref.npy`, each write containing every prior round's recorded
data. -/
theorem c3_artifact_shapes (cfg : Config) (env : Env) (hd : env.trainData ≠ [])
    (hI : 0 < cfg.n_test_interval) (hjr : cfg.just_ref = false)
    (hns : cfg.no_save = false) (numSlices : ℕ)
    (hsl : ∀ s i, (env.accNet s i).length = numSlices)
    (h2 : ∀ s i, env.testTensor s i = .ok ())
    (r : ℕ) (hr : r * cfg.n_test_interval < cfg.n_steps) :
    ∃ pre A B,
      (run cfg env (r * cfg.n_test_interval + 1)).writes =
        pre ++ [WriteEvent.npySave3 "acc_test.npy" A,
          WriteEvent.npySave2 "acc_test_ref.npy" B,
          WriteEvent.torchSave (checkpointName (r * cfg.n_test_interval))] ∧
      A.length = nTestsTotal cfg ∧
      (∀ k, k < nTestsTotal cfg → (getIdx [] A k).length = nTest cfg) ∧
      B.length = nTestsTotal cfg ∧
      (∀ k, k < nTestsTotal cfg → (getIdx [] B k).length = nTest cfg) ∧
      (∀ r' i v, get2 A r' i = some v → v.length = numSlices) ∧
      (∀ r' i, r' ≤ r → i < nTest cfg →
        get2 A r' i = some (env.accNet (r' * cfg.n_test_interval) i) ∧
        get2 B r' i = some (env.accRef (r' * cfg.n_test_interval) i)) := by
  have hrw := round_writes cfg env hd hI hjr hns r hr (fun s _ i => h2 s i)
  obtain ⟨_, _, hlenA, hrowA, hlenB, hrowB, hcellA, hcellB⟩ :=
    run_inv cfg env hd hI (r * cfg.n_test_interval + 1) (by omega)
      (fun s _ i => h2 s i)
  refine ⟨(run cfg env (r * cfg.n_test_interval)).writes,
    (run cfg env (r * cfg.n_test_interval + 1)).accTest,
    (run cfg env (r * cfg.n_test_interval + 1)).accTestRef,
    hrw, hlenA, ?_, hlenB, ?_, ?_, ?_⟩
  · intro k hk
    rw [hrowA k, if_pos hk]
  · intro k hk
    rw [hrowB k, if_pos hk]
  · intro r' i v hv
    rw [hcellA r' i] at hv
    by_cases hc2 : r' * cfg.n_test_interval < r * cfg.n_test_interval + 1 ∧
        i < nTest cfg ∧ cfg.just_ref = false
    · rw [if_pos hc2] at hv
      rw [← Option.some.inj hv]
      exact hsl _ _
    · rw [if_neg hc2] at hv
      exact absurd hv (by simp)
  · intro r' i hr' hi
    have hmul : r' * cfg.n_test_interval ≤ r * cfg.n_test_interval :=
      Nat.mul_le_mul_right _ hr'
    exact ⟨by rw [hcellA, if_pos ⟨by omega, hi, hjr⟩],
      by rw [hcellB, if_pos ⟨by omega, hi⟩]⟩

/-- C8 counterexample: with `n_test_interval = 20`, the evaluation round of
round index 1 happens at step 20 and checkpoints to `parameters_20.pth` —
the file name is formatted with the step, and the round-indexed name
`parameters_1.pth` the claim requires is never written. -/
theorem c8_counterexample :
    WriteEvent.torchSave (checkpointName 20) ∈
      (run cfgStep20 envSmall 21).writes ∧
    checkpointName 20 ≠ roundIndexedName (20 / cfgStep20.n_test_interval) ∧
    WriteEvent.torchSave (roundIndexedName (20 / cfgStep20.n_test_interval)) ∉
      (run cfgStep20 envSmall 21).writes := by
  refine ⟨?_, ?_, ?_⟩ <;> decide

/-- C8 amended: at the evaluation round of round index `r` (step
`r * n_test_interval`), when not in reference-only mode and saving is
enabled, exactly one round checkpoint is written, named
`parameters_<step>.pth` — indexed by the step at which the round occurs, not
by the round index `r` itself. -/
theorem c8_checkpoint_step_name (cfg : Config) (env : Env)
    (hd : env.trainData ≠ []) (hI : 0 < cfg.n_test_interval)
    (hjr : cfg.just_ref = false) (hns : cfg.no_save = false)
    (h2 : ∀ s i, env.testTensor s i = .ok ())
    (r : ℕ) (hr : r * cfg.n_test_interval < cfg.n_steps) :
    checkpointName (r * cfg.n_test_interval) =
      "parameters_" ++ Nat.repr (r * cfg.n_test_interval) ++ ".pth" ∧
    (run cfg env (r * cfg.n_test_interval + 1)).writes =
      (run cfg env (r * cfg.n_test_interval)).writes ++
        [WriteEvent.npySave3 "acc_test.npy"
            (run cfg env (r * cfg.n_test_interval + 1)).accTest,
          WriteEvent.npySave2 "acc_test_ref.npy"
            (run cfg env (r * cfg.n_test_interval + 1)).accTestRef,
          WriteEvent.torchSave (checkpointName (r * cfg.n_test_interval))] :=
  ⟨rfl, round_writes cfg env hd hI hjr hns r hr (fun s _ i => h2 s i)⟩

/-- C9 counterexample: in reference-only mode the round at step 0 records the
reference accuracy cell `[0, 0]`, but nothing is ever saved to disk (the save
guard excludes `just_ref`), refuting "the accuracy array is still saved to
disk each round". -/
theorem c9_counterexample :
    get2 (run cfgJustRef envSmall 1).accTestRef 0 0 = some 1 ∧
    (run cfgJustRef envSmall 1).writes = [] := ⟨rfl, rfl⟩

/-- C9 amended: in reference-only mode every evaluation round still records
the reference network's per-batch accuracy for each held-out batch in the
in-memory array, but the accuracy arrays are never saved to disk — the save
guard skips reference-only runs entirely. -/
theorem c9_just_ref_records_not_saves (cfg : Config) (env : Env)
    (hd : env.trainData ≠ []) (hI : 0 < cfg.n_test_interval)
    (h2 : ∀ s i, env.testTensor s i = .ok ())
    (hjr : cfg.just_ref = true) (n : ℕ) (hn : n ≤ cfg.n_steps) :
    (∀ r' i, r' * cfg.n_test_interval < n → i < nTest cfg →
      get2 (run cfg env n).accTestRef r' i =
        some (env.accRef (r' * cfg.n_test_interval) i)) ∧
    (run cfg env n).writes = [] := by
  obtain ⟨_, _, _, _, _, _, _, hcellB⟩ :=
    run_inv cfg env hd hI n hn (fun s _ i => h2 s i)
  exact ⟨fun r' i h1 hi => by rw [hcellB, if_pos ⟨h1, hi⟩],
    run_writes_just_ref cfg env hd h2 hjr n⟩

/-- C10: both accuracy arrays are allocated at full size before training with
every cell unassigned; the save at round `r` writes the entire arrays, whose
shapes are always `[n_tests_total, n_test]` (rows), with rows for rounds
`0..r` populated by the recorded accuracies and every row for a round greater
than `r` still entirely unassigned. -/
theorem c10_cumulative_full_arrays (cfg : Config) (env : Env)
    (hd : env.trainData ≠ []) (hI : 0 < cfg.n_test_interval)
    (hjr : cfg.just_ref = false) (hns : cfg.no_save = false)
    (h2 : ∀ s i, env.testTensor s i = .ok ())
    (r : ℕ) (hr : r * cfg.n_test_interval < cfg.n_steps) :
    (initState cfg).accTest =
      List.replicate (nTestsTotal cfg) (List.replicate (nTest cfg) none) ∧
    (initState cfg).accTestRef =
      List.replicate (nTestsTotal cfg) (List.replicate (nTest cfg) none) ∧
    ∃ pre,
      (run cfg env (r * cfg.n_test_interval + 1)).writes =
        pre ++ [WriteEvent.npySave3 "acc_test.npy"
            (run cfg env (r * cfg.n_test_interval + 1)).accTest,
          WriteEvent.npySave2 "acc_test_ref.npy"
            (run cfg env (r * cfg.n_test_interval + 1)).accTestRef,
          WriteEvent.torchSave (checkpointName (r * cfg.n_test_interval))] ∧
      (run cfg env (r * cfg.n_test_interval + 1)).accTest.length =
        nTestsTotal cfg ∧
      (run cfg env (r * cfg.n_test_interval + 1)).accTestRef.length =
        nTestsTotal cfg ∧
      (∀ r' i, r' ≤ r → i < nTest cfg →
        get2 (run cfg env (r * cfg.n_test_interval + 1)).accTest r' i =
          some (env.accNet (r' * cfg.n_test_interval) i) ∧
        get2 (run cfg env (r * cfg.n_test_interval + 1)).accTestRef r' i =
          some (env.accRef (r' * cfg.n_test_interval) i)) ∧
      (∀ r' i, r < r' →
        get2 (run cfg env (r * cfg.n_test_interval + 1)).accTest r' i = none ∧
        get2 (run cfg env (r * cfg.n_test_interval + 1)).accTestRef r' i =
          none) := by
  have hrw := round_writes cfg env hd hI hjr hns r hr (fun s _ i => h2 s i)
  obtain ⟨_, _, hlenA, _, hlenB, _, hcellA, hcellB⟩ :=
    run_inv cfg env hd hI (r * cfg.n_test_interval + 1) (by omega)
      (fun s _ i => h2 s i)
  refine ⟨rfl, rfl, (run cfg env (r * cfg.n_test_interval)).writes, hrw,
    hlenA, hlenB, ?_, ?_⟩
  · intro r' i hr' hi
    have hmul : r' * cfg.n_test_interval ≤ r * cfg.n_test_interval :=
      Nat.mul_le_mul_right _ hr'
    exact ⟨by rw [hcellA, if_pos ⟨by omega, hi, hjr⟩],
      by rw [hcellB, if_pos ⟨by omega, hi⟩]⟩
  · intro r' i hr'
    have hmul : (r + 1) * cfg.n_test_interval ≤ r' * cfg.n_test_interval :=
      Nat.mul_le_mul_right _ hr'
    have hexp : (r + 1) * cfg.n_test_interval =
        r * cfg.n_test_interval + cfg.n_test_interval := by ring
    exact ⟨by rw [hcellA, if_neg fun h => by omega],
      by rw [hcellB, if_neg fun h => by omega]⟩

theorem c1_witness :
    get2 (run cfgNoSave envSmall (0 + 1)).accTestRef
      (0 / cfgNoSave.n_test_interval) 0 = some (envSmall.accRef 0 0) :=
  ((c1_eval_schedule cfgNoSave envSmall (by decide) (by decide)
      (fun _ _ => rfl) 0 (by decide)).1 (by decide)).1 0 (by decide)

theorem c2_witness :
    (run cfgNoSave envSmall 2500).refLr =
      cfgNoSave.refLr0 / 2 ^ (2500 / 1000) :=
  ((c2_lr_halving cfgNoSave envSmall (by decide) (fun _ _ => rfl) rfl).1
    2500).2.2

theorem c3_witness :
    ∃ pre A B,
      (run cfgSave envSmall (0 * cfgSave.n_test_interval + 1)).writes =
        pre ++ [WriteEvent.npySave3 "acc_test.npy" A,
          WriteEvent.npySave2 "acc_test_ref.npy" B,
          WriteEvent.torchSave (checkpointName (0 * cfgSave.n_test_interval))] ∧
      A.length = nTestsTotal cfgSave ∧
      (∀ k, k < nTestsTotal cfgSave → (getIdx [] A k).length = nTest cfgSave) ∧
      B.length = nTestsTotal cfgSave ∧
      (∀ k, k < nTestsTotal cfgSave → (getIdx [] B k).length = nTest cfgSave) ∧
      (∀ r' i v, get2 A r' i = some v → v.length = 1) ∧
      (∀ r' i, r' ≤ 0 → i < nTest cfgSave →
        get2 A r' i = some (envSmall.accNet (r' * cfgSave.n_test_interval) i) ∧
        get2 B r' i =
          some (envSmall.accRef (r' * cfgSave.n_test_interval) i)) :=
  c3_artifact_shapes cfgSave envSmall (by decide) (by decide) rfl rfl 1
    (fun _ _ => rfl) (fun _ _ => rfl) 0 (by decide)

theorem c4_witness : fetchBatch [[2], [3]] 7 = .ok ([2], 1) := by
  obtain ⟨-, b0, h1, h2⟩ := c4_fetch_restart [[2], [3]] (by decide)
  have h3 := h2 7 (by decide)
  have h4 : fetchBatch [[2], [3]] 0 = .ok ([2], 1) := by
    unfold fetchBatch
    simp
  rw [h1] at h4
  simp only [Except.ok.injEq, Prod.mk.injEq, and_true] at h4
  rw [h4] at h3
  exact h3

theorem c5_witness :
    (run cfgNoSave envSmall 3).labelCounts.sum =
      ((3 * cfgNoSave.batch_size : ℕ) : ℤ) :=
  (c5_label_counts cfgNoSave envSmall (by decide) (fun _ _ => rfl)
    (by decide) (by decide) 3).2.2.2.1

theorem c6_witness :
    (mainRun cfgNoSave envSmall (some "missing.pth") (fun _ => false)
      (fun _ => []) [5]).1 = [5] :=
  (c6_missing_restore cfgNoSave envSmall (by decide) (fun _ _ => rfl)
    (by decide) "missing.pth" (fun _ => false) (fun _ => []) [5] rfl).1

theorem c7_witness :
    (run cfgNoSave envOom (0 + 1)).crashed = some "CUDA out of memory" :=
  (c7_test_tensor_error cfgNoSave envOom (by decide) (by decide) rfl 0 rfl
    (by decide) (fun s' hs' _ => absurd hs' (Nat.not_lt_zero s')) 0
    (by decide) (fun j hj => absurd hj (Nat.not_lt_zero j))
    "CUDA out of memory" rfl).1

theorem c8_witness :
    (run cfgStep20 envSmall (1 * cfgStep20.n_test_interval + 1)).writes =
      (run cfgStep20 envSmall (1 * cfgStep20.n_test_interval)).writes ++
        [WriteEvent.npySave3 "acc_test.npy"
            (run cfgStep20 envSmall
              (1 * cfgStep20.n_test_interval + 1)).accTest,
          WriteEvent.npySave2 "acc_test_ref.npy"
            (run cfgStep20 envSmall
              (1 * cfgStep20.n_test_interval + 1)).accTestRef,
          WriteEvent.torchSave
            (checkpointName (1 * cfgStep20.n_test_interval))] :=
  (c8_checkpoint_step_name cfgStep20 envSmall (by decide) (by decide) rfl rfl
    (fun _ _ => rfl) 1 (by decide)).2

theorem c9_witness :
    (run cfgJustRef envSmall 1).writes = [] :=
  (c9_just_ref_records_not_saves cfgJustRef envSmall (by decide) (by decide)
    (fun _ _ => rfl) rfl 1 (by decide)).2

theorem c10_witness :
    ∃ pre,
      (run cfgSave envSmall (0 * cfgSave.n_test_interval + 1)).writes =
        pre ++ [WriteEvent.npySave3 "acc_test.npy"
            (run cfgSave envSmall (0 * cfgSave.n_test_interval + 1)).accTest,
          WriteEvent.npySave2 "acc_test_ref.npy"
            (run cfgSave envSmall
              (0 * cfgSave.n_test_interval + 1)).accTestRef,
          WriteEvent.torchSave (checkpointName (0 * cfgSave.n_test_interval))] ∧
      (run cfgSave envSmall (0 * cfgSave.n_test_interval + 1)).accTest.length =
        nTestsTotal cfgSave ∧
      (run cfgSave envSmall
          (0 * cfgSave.n_test_interval + 1)).accTestRef.length =
        nTestsTotal cfgSave ∧
      (∀ r' i, r' ≤ 0 → i < nTest cfgSave →
        get2 (run cfgSave envSmall
            (0 * cfgSave.n_test_interval + 1)).accTest r' i =
          some (envSmall.accNet (r' * cfgSave.n_test_interval) i) ∧
        get2 (run cfgSave envSmall
            (0 * cfgSave.n_test_interval + 1)).accTestRef r' i =
          some (envSmall.accRef (r' * cfgSave.n_test_interval) i)) ∧
      (∀ r' i, 0 < r' →
        get2 (run cfgSave envSmall
            (0 * cfgSave.n_test_interval + 1)).accTest r' i = none ∧
        get2 (run cfgSave envSmall
            (0 * cfgSave.n_test_interval + 1)).accTestRef r' i = none) :=
  (c10_cumulative_full_arrays cfgSave envSmall (by decide) (by decide) rfl rfl
    (fun _ _ => rfl) 0 (by decide)).2.2

end SNNTrain
